import Mathlib

/-!
# Masked phone-number input editor of `static/script.js`

A shallow embedding of the three event handlers that `setupPhoneInput` attaches
to the phone field (`handlePhoneKeyDown`, `formatPhoneInput`,
`positionCursorOnFocus`), of their two helper loops, and of the pattern test
that `handleAddContact` applies to the field on submit.

A JavaScript string is a `List Char`, one element per code unit: the handlers
only ever ask of a character whether it is an ASCII digit or one of the four
separators, and index the string by position.  The text field is a record of its
text and its selection range.
-/

namespace Phonebook

/-- A JavaScript string, one element per code unit. -/
abbrev JSString := List Char

/-- The regular-expression class `\d`: the ASCII digits `0` to `9`. -/
def isDigit (c : Char) : Bool := decide (48 ≤ c.toNat) && decide (c.toNat ≤ 57)

/-- The regular-expression class `[()\- ]` used by the caret loops. -/
def isSeparator (c : Char) : Bool := c == '(' || c == ')' || c == '-' || c == ' '

/-- The test `/[()\- ]/.test(value[i])`. Outside the string `value[i]` is
`undefined`, which is tested as the text "undefined" and holds no separator. -/
def testSeparator : Option Char → Bool
  | some c => isSeparator c
  | none => false

/-- The call `value.slice(a, b)` for non-negative `a` and `b`. -/
def slice (value : JSString) (a b : Nat) : JSString := (value.take b).drop a

/-- The state of the phone field that the handlers read and write. -/
structure PhoneField where
  value : JSString
  selectionStart : Nat
  selectionEnd : Nat
deriving DecidableEq, Repr

/-- The DOM call `setSelectionRange(start, end)`: the end is clamped to the
length of the text and the start to the end. -/
def setSelectionRange (f : PhoneField) (start stop : Nat) : PhoneField :=
  let stop1 := min stop f.value.length
  { f with selectionStart := min start stop1, selectionEnd := stop1 }

/-- The loop of `findPreviousDigitPosition(pos, value)` (lines 81-86):
`while (pos > 0 && /[()\- ]/.test(value[pos - 1])) pos--`. -/
def findPreviousDigitPosition : Nat → JSString → Nat
  | 0, _ => 0
  | pos + 1, value =>
    if testSeparator value[pos]? then findPreviousDigitPosition pos value else pos + 1

/-- The loop of `findNextDigitPosition`, with the number of characters left to
the end of the string as the bound on its iterations. -/
def findNextLoop (value : JSString) : Nat → Nat → Nat
  | 0, pos => pos
  | fuel + 1, pos =>
    if pos < value.length && testSeparator value[pos]? then findNextLoop value fuel (pos + 1)
    else pos

/-- The function `findNextDigitPosition(pos, value)` (lines 88-93):
`while (pos < value.length && /[()\- ]/.test(value[pos])) pos++`. Every
iteration needs `pos < value.length`, so `value.length - pos` iterations are
all the loop can make. -/
def findNextDigitPosition (pos : Nat) (value : JSString) : Nat :=
  findNextLoop value (value.length - pos) pos

/-- The keys that `handlePhoneKeyDown` tells apart by `e.key`. -/
inductive Key where
  | Backspace
  | Delete
  | other
deriving DecidableEq, Repr

/-- What a key-down handler leaves behind: the field, and whether
`e.preventDefault()` was called. -/
structure KeyResult where
  field : PhoneField
  defaultPrevented : Bool
deriving DecidableEq, Repr

/-- The Backspace branch of `handlePhoneKeyDown` (lines 55-66). -/
def handleBackspace (key : Key) (r : KeyResult) : KeyResult :=
  let cursorPos := r.field.selectionStart
  let value := r.field.value
  if key = Key.Backspace ∧ cursorPos > 0 then
    if testSeparator value[cursorPos - 1]? then
      let newPosition := findPreviousDigitPosition (cursorPos - 1) value
      { field := setSelectionRange r.field newPosition newPosition, defaultPrevented := true }
    else r
  else r

/-- The Delete branch of `handlePhoneKeyDown` (lines 68-78). -/
def handleDelete (key : Key) (r : KeyResult) : KeyResult :=
  if key = Key.Delete then
    let cursorPos := r.field.selectionStart
    let value := r.field.value
    if cursorPos < value.length ∧ testSeparator value[cursorPos]? then
      let newPosition := findNextDigitPosition (cursorPos + 1) value
      { field := setSelectionRange r.field cursorPos newPosition, defaultPrevented := true }
    else r
  else r

/-- The handler `handlePhoneKeyDown(e)` (lines 54-79): the Backspace branch, then
the Delete branch. -/
def handlePhoneKeyDown (key : Key) (f : PhoneField) : KeyResult :=
  handleDelete key (handleBackspace key { field := f, defaultPrevented := false })

/-- Line 96: `phoneInput.value.replace(/\D/g, '')`. -/
def stripNonDigits (s : JSString) : JSString := s.filter isDigit

/-- The test `value.startsWith('7')`. -/
def startsWith7 : JSString → Bool
  | c :: _ => c == '7'
  | [] => false

/-- Lines 99-101: a leading `7` is dropped when more than one digit is there. -/
def dropLeading7 (value : JSString) : JSString :=
  if startsWith7 value && decide (value.length > 1) then value.drop 1 else value

/-- Lines 96-101: the digits of the field, the leading `7` dropped. -/
def normalizedDigits (s : JSString) : JSString := dropLeading7 (stripNonDigits s)

/-- Lines 96-104: the value that is formatted, `value.slice(0, 10)` of the
normalized digits. -/
def rawDigits (s : JSString) : JSString := slice (normalizedDigits s) 0 10

/-- Lines 107-119: the display built from the digits kept. -/
def formatDigits (value : JSString) : JSString :=
  let formatted := ['+', '7']
  if value.length > 0 then
    let formatted := formatted ++ [' ', '('] ++ slice value 0 3
    if value.length > 3 then
      let formatted := formatted ++ [')', ' '] ++ slice value 3 6
      if value.length > 6 then
        let formatted := formatted ++ ['-'] ++ slice value 6 8
        if value.length > 8 then
          formatted ++ ['-'] ++ slice value 8 10
        else formatted
      else formatted
    else formatted
  else formatted

/-- The text that `formatPhoneInput` writes back to the field (lines 96-121),
as a function of the text it finds there. -/
def formatPhoneInput (s : JSString) : JSString := formatDigits (rawDigits s)

/-- The loop of the deferred callback of `formatPhoneInput` (lines 125-129):
`while (newCursorPos > 0 && /[()\- ]/.test(phoneInput.value[newCursorPos - 1]))
newCursorPos--`. -/
def correctedCursor : Nat → JSString → Nat
  | 0, _ => 0
  | newCursorPos + 1, value =>
    if testSeparator value[newCursorPos]? then correctedCursor newCursorPos value
    else newCursorPos + 1

/-- The deferred callback of `formatPhoneInput` (lines 124-131), run on the field
as the edit and the write of the new text left it. -/
def restoreCursor (f : PhoneField) : PhoneField :=
  let newCursorPos := correctedCursor f.selectionStart f.value
  setSelectionRange f newCursorPos newCursorPos

/-- The handler `positionCursorOnFocus` (lines 134-139). -/
def positionCursorOnFocus (f : PhoneField) : PhoneField :=
  if f.value = ['+', '7'] then setSelectionRange f 2 2 else f

/-- The characters that `String.prototype.trim` removes: white space and line
terminators. -/
def isTrimmed (c : Char) : Bool :=
  decide (c.toNat ∈ [9, 10, 11, 12, 13, 32, 160, 5760, 8232, 8233, 8239, 8287, 12288, 65279])
    || (decide (8192 ≤ c.toNat) && decide (c.toNat ≤ 8202))

/-- The call `phone.trim()`. -/
def trim (s : JSString) : JSString :=
  ((s.dropWhile isTrimmed).reverse.dropWhile isTrimmed).reverse

/-- The pattern `/^\+7 \(\d{3}\) \d{3}-\d{2}-\d{2}$/` of `handleAddContact`
(line 224): eighteen characters, the literal ones in their places and a digit
in each of the ten others. -/
def matchesPhonePattern : JSString → Bool
  | [p, s, b0, o, d0, d1, d2, c, b1, d3, d4, d5, h0, d6, d7, h1, d8, d9] =>
    p == '+' && s == '7' && b0 == ' ' && o == '(' && isDigit d0 && isDigit d1 && isDigit d2
      && c == ')' && b1 == ' ' && isDigit d3 && isDigit d4 && isDigit d5 && h0 == '-'
      && isDigit d6 && isDigit d7 && h1 == '-' && isDigit d8 && isDigit d9
  | _ => false

/-- The phone check of `handleAddContact` (lines 216 and 224): the trimmed text of
the field matches the pattern. -/
def phoneAccepted (fieldValue : JSString) : Bool := matchesPhonePattern (trim fieldValue)

/-- Typing the characters of `typed` at the end of the field, one at a time, the
reformat of `formatPhoneInput` run after each of them. -/
def typeAtEnd (display : JSString) (typed : List Char) : JSString :=
  typed.foldl (fun d c => formatPhoneInput (d ++ [c])) display

/-- The template of the specification: `+7` alone for no digit, then
`+7 (d0d1d2) d3d4d5-d6d7-d8d9` cut off after the last digit there is. -/
def templateRendering : JSString → JSString
  | [] => "+7".toList
  | [a] => "+7 (".toList ++ [a]
  | [a, b] => "+7 (".toList ++ [a, b]
  | [a, b, c] => "+7 (".toList ++ [a, b, c]
  | [a, b, c, d] => "+7 (".toList ++ [a, b, c] ++ ") ".toList ++ [d]
  | [a, b, c, d, e] => "+7 (".toList ++ [a, b, c] ++ ") ".toList ++ [d, e]
  | [a, b, c, d, e, f] => "+7 (".toList ++ [a, b, c] ++ ") ".toList ++ [d, e, f]
  | [a, b, c, d, e, f, g] =>
    "+7 (".toList ++ [a, b, c] ++ ") ".toList ++ [d, e, f] ++ "-".toList ++ [g]
  | [a, b, c, d, e, f, g, h] =>
    "+7 (".toList ++ [a, b, c] ++ ") ".toList ++ [d, e, f] ++ "-".toList ++ [g, h]
  | [a, b, c, d, e, f, g, h, i] =>
    "+7 (".toList ++ [a, b, c] ++ ") ".toList ++ [d, e, f] ++ "-".toList ++ [g, h]
      ++ "-".toList ++ [i]
  | a :: b :: c :: d :: e :: f :: g :: h :: i :: j :: _ =>
    "+7 (".toList ++ [a, b, c] ++ ") ".toList ++ [d, e, f] ++ "-".toList ++ [g, h]
      ++ "-".toList ++ [i, j]

/-- Every character of the list is a digit. -/
def AllDigits (v : JSString) : Prop := ∀ c ∈ v, isDigit c = true

/-! ## Characters -/

theorem isTrimmed_of_isDigit {c : Char} (h : isDigit c = true) : isTrimmed c = false := by
  simp only [isDigit, Bool.and_eq_true, decide_eq_true_eq] at h
  simp only [isTrimmed, Bool.or_eq_false_iff, decide_eq_false_iff_not, Bool.and_eq_false_iff,
    List.mem_cons, List.mem_singleton, List.not_mem_nil, or_false]
  omega

@[simp] theorem isDigit_seven : isDigit '7' = true := by decide
@[simp] theorem isDigit_plus : isDigit '+' = false := by decide
@[simp] theorem isDigit_blank : isDigit ' ' = false := by decide
@[simp] theorem isDigit_open : isDigit '(' = false := by decide
@[simp] theorem isDigit_close : isDigit ')' = false := by decide
@[simp] theorem isDigit_hyphen : isDigit '-' = false := by decide
@[simp] theorem isTrimmed_plus : isTrimmed '+' = false := by decide
@[simp] theorem isTrimmed_seven : isTrimmed '7' = false := by decide

/-! ## Lists of at most ten digits -/

/-- A property of the digit lists of length at most ten is proved shape by shape. -/
theorem shortDigits_cases {P : JSString → Prop}
    (h0 : P [])
    (h1 : ∀ a, AllDigits [a] → P [a])
    (h2 : ∀ a b, AllDigits [a, b] → P [a, b])
    (h3 : ∀ a b c, AllDigits [a, b, c] → P [a, b, c])
    (h4 : ∀ a b c d, AllDigits [a, b, c, d] → P [a, b, c, d])
    (h5 : ∀ a b c d e, AllDigits [a, b, c, d, e] → P [a, b, c, d, e])
    (h6 : ∀ a b c d e f, AllDigits [a, b, c, d, e, f] → P [a, b, c, d, e, f])
    (h7 : ∀ a b c d e f g, AllDigits [a, b, c, d, e, f, g] → P [a, b, c, d, e, f, g])
    (h8 : ∀ a b c d e f g h, AllDigits [a, b, c, d, e, f, g, h] → P [a, b, c, d, e, f, g, h])
    (h9 : ∀ a b c d e f g h i, AllDigits [a, b, c, d, e, f, g, h, i] →
      P [a, b, c, d, e, f, g, h, i])
    (h10 : ∀ a b c d e f g h i j, AllDigits [a, b, c, d, e, f, g, h, i, j] →
      P [a, b, c, d, e, f, g, h, i, j])
    (v : JSString) (hv : AllDigits v) (hlen : v.length ≤ 10) : P v := by
  rcases v with _ | ⟨a, _ | ⟨b, _ | ⟨c, _ | ⟨d, _ | ⟨e, _ | ⟨f, _ | ⟨g, _ | ⟨h, _ | ⟨i, _ | ⟨j, _ | ⟨k, t⟩⟩⟩⟩⟩⟩⟩⟩⟩⟩⟩
  · exact h0
  · exact h1 _ hv
  · exact h2 _ _ hv
  · exact h3 _ _ _ hv
  · exact h4 _ _ _ _ hv
  · exact h5 _ _ _ _ _ hv
  · exact h6 _ _ _ _ _ _ hv
  · exact h7 _ _ _ _ _ _ _ hv
  · exact h8 _ _ _ _ _ _ _ _ hv
  · exact h9 _ _ _ _ _ _ _ _ _ hv
  · exact h10 _ _ _ _ _ _ _ _ _ _ hv
  · simp at hlen

theorem allDigits_stripNonDigits (s : JSString) : AllDigits (stripNonDigits s) := by
  intro c hc
  exact (List.mem_filter.mp hc).2

theorem stripNonDigits_of_allDigits {v : JSString} (hv : AllDigits v) : stripNonDigits v = v :=
  List.filter_eq_self.mpr hv

theorem allDigits_dropLeading7 {v : JSString} (hv : AllDigits v) : AllDigits (dropLeading7 v) := by
  intro c hc
  unfold dropLeading7 at hc
  split at hc
  · exact hv c (List.mem_of_mem_drop hc)
  · exact hv c hc

theorem allDigits_normalizedDigits (s : JSString) : AllDigits (normalizedDigits s) :=
  allDigits_dropLeading7 (allDigits_stripNonDigits s)

theorem rawDigits_eq_take (s : JSString) : rawDigits s = (normalizedDigits s).take 10 := by
  simp [rawDigits, slice]

theorem allDigits_rawDigits (s : JSString) : AllDigits (rawDigits s) := by
  intro c hc
  rw [rawDigits_eq_take] at hc
  exact allDigits_normalizedDigits s c (List.mem_of_mem_take hc)

theorem length_rawDigits_le (s : JSString) : (rawDigits s).length ≤ 10 := by
  rw [rawDigits_eq_take, List.length_take]
  exact Nat.min_le_left _ _

theorem dropLeading7_seven_cons (d : JSString) (hne : d ≠ []) : dropLeading7 ('7' :: d) = d := by
  cases d with
  | nil => exact absurd rfl hne
  | cons a t => simp [dropLeading7, startsWith7]

theorem dropLeading7_of_not_startsWith7 {d : JSString} (h : startsWith7 d = false) :
    dropLeading7 d = d := by
  simp [dropLeading7, h]

/-! ## The display of at most ten digits -/

theorem stripNonDigits_formatDigits (v : JSString) (hv : AllDigits v) (hlen : v.length ≤ 10) :
    stripNonDigits (formatDigits v) = '7' :: v := by
  refine shortDigits_cases (P := fun v => stripNonDigits (formatDigits v) = '7' :: v)
    ?_ ?_ ?_ ?_ ?_ ?_ ?_ ?_ ?_ ?_ ?_ v hv hlen
  all_goals intros
  all_goals simp_all [AllDigits, stripNonDigits, formatDigits, slice, List.filter_cons]

theorem formatDigits_eq_templateRendering (v : JSString) :
    formatDigits v = templateRendering v := by
  rcases v with _ | ⟨a, _ | ⟨b, _ | ⟨c, _ | ⟨d, _ | ⟨e, _ | ⟨f, _ | ⟨g, _ | ⟨h, _ | ⟨i, _ | ⟨j, t⟩⟩⟩⟩⟩⟩⟩⟩⟩⟩
  all_goals rfl

theorem formatDigits_eq_cons (v : JSString) :
    formatDigits v = '+' :: '7' :: (formatDigits v).drop 2 := by
  unfold formatDigits
  simp only []
  repeat' split
  all_goals rfl

theorem length_formatDigits_le (v : JSString) (hv : AllDigits v) (hlen : v.length ≤ 10) :
    (formatDigits v).length ≤ 18 := by
  refine shortDigits_cases (P := fun v => (formatDigits v).length ≤ 18)
    ?_ ?_ ?_ ?_ ?_ ?_ ?_ ?_ ?_ ?_ ?_ v hv hlen
  all_goals intros
  all_goals simp [formatDigits, slice]

theorem formatDigits_eq_bare_iff (v : JSString) : formatDigits v = ['+', '7'] ↔ v = [] := by
  constructor
  · intro h
    cases v with
    | nil => rfl
    | cons a t =>
      have hl := congrArg List.length h
      unfold formatDigits at hl
      simp only [] at hl
      repeat' split at hl
      all_goals simp_all
  · rintro rfl
    rfl

theorem matchesPhonePattern_formatDigits (v : JSString) (hv : AllDigits v)
    (hlen : v.length ≤ 10) : matchesPhonePattern (formatDigits v) = true ↔ v.length = 10 := by
  refine shortDigits_cases
    (P := fun v => matchesPhonePattern (formatDigits v) = true ↔ v.length = 10)
    ?_ ?_ ?_ ?_ ?_ ?_ ?_ ?_ ?_ ?_ ?_ v hv hlen
  all_goals intros
  all_goals simp_all [AllDigits, matchesPhonePattern, formatDigits, slice]

theorem trim_formatDigits (v : JSString) (hv : AllDigits v) (hlen : v.length ≤ 10) :
    trim (formatDigits v) = formatDigits v := by
  refine shortDigits_cases (P := fun v => trim (formatDigits v) = formatDigits v)
    ?_ ?_ ?_ ?_ ?_ ?_ ?_ ?_ ?_ ?_ ?_ v hv hlen
  all_goals intros
  all_goals simp_all [AllDigits, trim, formatDigits, slice, List.dropWhile_cons,
    isTrimmed_of_isDigit]

/-- Reformatting the display of one to ten digits gives these digits back. -/
theorem rawDigits_formatDigits (d : JSString) (hd : AllDigits d) (hne : d ≠ [])
    (hlen : d.length ≤ 10) : rawDigits (formatDigits d) = d := by
  rw [rawDigits_eq_take, normalizedDigits, stripNonDigits_formatDigits d hd hlen,
    dropLeading7_seven_cons d hne]
  exact List.take_of_length_le hlen

/-- Typing one digit at the end of the display of at most ten digits. -/
theorem formatPhoneInput_formatDigits_append (v : JSString) (hv : AllDigits v)
    (hlen : v.length ≤ 10) (c : Char) (hc : isDigit c = true) :
    formatPhoneInput (formatDigits v ++ [c]) = formatDigits ((v ++ [c]).take 10) := by
  have h1 : stripNonDigits (formatDigits v ++ [c]) = '7' :: (v ++ [c]) := by
    have h2 := stripNonDigits_formatDigits v hv hlen
    unfold stripNonDigits at h2 ⊢
    rw [List.filter_append, h2]
    simp [hc]
  rw [formatPhoneInput, rawDigits_eq_take, normalizedDigits, h1,
    dropLeading7_seven_cons _ (by simp)]

theorem typeAtEnd_append (display : JSString) (typed : List Char) (c : Char) :
    typeAtEnd display (typed ++ [c]) = formatPhoneInput (typeAtEnd display typed ++ [c]) := by
  simp [typeAtEnd, List.foldl_append]

theorem take_ten_append (typed : List Char) (c : Char) :
    ((typed.take 10) ++ [c]).take 10 = (typed ++ [c]).take 10 := by
  by_cases h : typed.length ≤ 10
  · rw [List.take_of_length_le h]
  · have h10 : 10 ≤ typed.length := by omega
    rw [List.take_append_of_le_length h10, List.take_append_of_le_length (by simp; omega)]
    simp [List.take_take]

theorem typeAtEnd_eq_formatDigits (typed : List Char) (hd : AllDigits typed) :
    typeAtEnd ['+', '7'] typed = formatDigits (typed.take 10) := by
  induction typed using List.reverseRecOn with
  | nil => rfl
  | append_singleton typed c ih =>
    have hd1 : AllDigits typed := fun x hx => hd x (List.mem_append_left _ hx)
    have hc : isDigit c = true := hd c (by simp)
    have hv : AllDigits (typed.take 10) := fun x hx => hd1 x (List.mem_of_mem_take hx)
    have hlen : (typed.take 10).length ≤ 10 := by simp
    rw [typeAtEnd_append, ih hd1, formatPhoneInput_formatDigits_append _ hv hlen c hc,
      take_ten_append]


/-! ## The caret loops -/

theorem testSeparator_eq_true_iff (o : Option Char) :
    testSeparator o = true ↔ ∃ ch, o = some ch ∧ isSeparator ch = true := by
  cases o with
  | none => simp [testSeparator]
  | some c => simp [testSeparator]

theorem testSeparator_eq_false_of_lt (value : JSString) (i : Nat) (hi : i < value.length)
    (h : testSeparator value[i]? = false) :
    ∃ ch, value[i]? = some ch ∧ isSeparator ch = false := by
  rw [List.getElem?_eq_getElem hi] at h ⊢
  exact ⟨value[i], rfl, h⟩

/-- The backward loop stops at or before its start, has crossed separators only,
and stops at the start of the string or behind a character that is no
separator. -/
theorem findPreviousDigitPosition_spec (value : JSString) (pos : Nat) :
    findPreviousDigitPosition pos value ≤ pos ∧
    (∀ i, findPreviousDigitPosition pos value ≤ i → i < pos →
      testSeparator value[i]? = true) ∧
    (findPreviousDigitPosition pos value = 0 ∨
      testSeparator value[findPreviousDigitPosition pos value - 1]? = false) := by
  induction pos with
  | zero => simp [findPreviousDigitPosition]
  | succ pos ih =>
    obtain ⟨ih1, ih2, ih3⟩ := ih
    by_cases hsep : testSeparator value[pos]? = true
    · have heq : findPreviousDigitPosition (pos + 1) value
          = findPreviousDigitPosition pos value := by
        simp [findPreviousDigitPosition, hsep]
      rw [heq]
      refine ⟨Nat.le_succ_of_le ih1, ?_, ih3⟩
      intro i h1 h2
      by_cases hi : i = pos
      · rw [hi]; exact hsep
      · exact ih2 i h1 (by omega)
    · have heq : findPreviousDigitPosition (pos + 1) value = pos + 1 := by
        simp [findPreviousDigitPosition, hsep]
      rw [heq]
      refine ⟨Nat.le_refl _, ?_, Or.inr ?_⟩
      · intro i h1 h2
        omega
      · simpa using hsep

theorem correctedCursor_eq (value : JSString) (pos : Nat) :
    correctedCursor pos value = findPreviousDigitPosition pos value := by
  induction pos with
  | zero => rfl
  | succ pos ih => simp [correctedCursor, findPreviousDigitPosition, ih]

/-- The forward loop, given the iterations it can need: it stops at or after its
start and within the string, has crossed separators only, and stops at the end
of the string or on a character that is no separator. -/
theorem findNextLoop_spec (value : JSString) (fuel pos : Nat)
    (hfuel : value.length - pos ≤ fuel) (hpos : pos ≤ value.length) :
    pos ≤ findNextLoop value fuel pos ∧ findNextLoop value fuel pos ≤ value.length ∧
    (∀ i, pos ≤ i → i < findNextLoop value fuel pos → testSeparator value[i]? = true) ∧
    (findNextLoop value fuel pos = value.length ∨
      testSeparator value[findNextLoop value fuel pos]? = false) := by
  induction fuel generalizing pos with
  | zero =>
    have hp : pos = value.length := by omega
    refine ⟨Nat.le_refl _, hpos, ?_, Or.inl hp⟩
    intro i h1 h2
    simp only [findNextLoop] at h2
    omega
  | succ fuel ih =>
    by_cases hcond : (decide (pos < value.length) && testSeparator value[pos]?) = true
    · have heq : findNextLoop value (fuel + 1) pos = findNextLoop value fuel (pos + 1) := by
        simp only [findNextLoop, hcond, if_true]
      simp only [Bool.and_eq_true, decide_eq_true_eq] at hcond
      obtain ⟨h1, h2, h3, h4⟩ := ih (pos + 1) (by omega) (by omega)
      rw [heq]
      refine ⟨by omega, h2, ?_, h4⟩
      intro i hi1 hi2
      by_cases hi : i = pos
      · rw [hi]; exact hcond.2
      · exact h3 i (by omega) hi2
    · have heq : findNextLoop value (fuel + 1) pos = pos := by
        simp only [findNextLoop, hcond, Bool.false_eq_true, if_false]
      rw [heq]
      refine ⟨Nat.le_refl _, hpos, ?_, ?_⟩
      · intro i h1 h2
        omega
      · by_cases hlt : pos < value.length
        · right
          simpa [hlt] using hcond
        · left
          omega

theorem findNextDigitPosition_spec (value : JSString) (pos : Nat) (hpos : pos ≤ value.length) :
    pos ≤ findNextDigitPosition pos value ∧ findNextDigitPosition pos value ≤ value.length ∧
    (∀ i, pos ≤ i → i < findNextDigitPosition pos value → testSeparator value[i]? = true) ∧
    (findNextDigitPosition pos value = value.length ∨
      testSeparator value[findNextDigitPosition pos value]? = false) :=
  findNextLoop_spec value (value.length - pos) pos (Nat.le_refl _) hpos

theorem setSelectionRange_of_le (D : JSString) (c e a b : Nat) (hab : a ≤ b)
    (hb : b ≤ D.length) : setSelectionRange ⟨D, c, e⟩ a b = ⟨D, a, b⟩ := by
  simp [setSelectionRange, Nat.min_eq_left hb, Nat.min_eq_left hab]

/-- On Delete with the caret on a separator the selection runs from the caret
to where the forward loop stops, whatever the end of the selection was. -/
theorem handleDelete_on_separator (D : JSString) (c e : Nat) (hlt : c < D.length)
    (htest : testSeparator D[c]? = true) :
    handlePhoneKeyDown Key.Delete ⟨D, c, e⟩
      = { field := ⟨D, c, findNextDigitPosition (c + 1) D⟩, defaultPrevented := true } := by
  obtain ⟨h1, h2, -, -⟩ := findNextDigitPosition_spec D (c + 1) (by omega)
  simp only [handlePhoneKeyDown, handleBackspace, handleDelete, htest, hlt, reduceCtorEq,
    false_and, and_self, if_true, if_false]
  rw [setSelectionRange_of_le D c e _ _ (by omega) h2]

/-- Pressing Delete once more on the selection that Delete has left over a run
of separators changes nothing and is suppressed again. -/
theorem handleDelete_on_separator_again (D : JSString) (c e : Nat) (hlt : c < D.length)
    (htest : testSeparator D[c]? = true) :
    handlePhoneKeyDown Key.Delete (handlePhoneKeyDown Key.Delete ⟨D, c, e⟩).field
      = handlePhoneKeyDown Key.Delete ⟨D, c, e⟩ := by
  rw [handleDelete_on_separator D c e hlt htest]
  exact handleDelete_on_separator D c _ hlt htest

/-! ## Typing, idempotence, round trip, normalization, truncation -/

/-- C1: typing digits at the end of the display, starting from the bare display
`+7` and reformatting after each digit, leaves the template rendering of the
first `min(k, 10)` of the `k` digits typed. -/
theorem typeAtEnd_follows_template (typed : List Char)
    (hd : ∀ c ∈ typed, isDigit c = true) :
    typeAtEnd "+7".toList typed = templateRendering (typed.take (min typed.length 10)) := by
  have h : typed.take (min typed.length 10) = typed.take 10 := by
    by_cases hl : typed.length ≤ 10
    · rw [Nat.min_eq_left hl, List.take_of_length_le hl, List.take_of_length_le (Nat.le_refl _)]
    · rw [Nat.min_eq_right (by omega)]
  rw [h, ← formatDigits_eq_templateRendering]
  exact typeAtEnd_eq_formatDigits typed hd

/-- C1 at the digits 9, 1, 2, 3 typed one after the other. -/
theorem typeAtEnd_follows_template_witness :
    typeAtEnd "+7".toList "9".toList = "+7 (9".toList ∧
    typeAtEnd "+7".toList "91".toList = "+7 (91".toList ∧
    typeAtEnd "+7".toList "912".toList = "+7 (912".toList ∧
    typeAtEnd "+7".toList "9123".toList = "+7 (912) 3".toList ∧
    typeAtEnd "+7".toList "91234567890".toList = "+7 (912) 345-67-89".toList :=
  ⟨typeAtEnd_follows_template "9".toList (by decide),
   typeAtEnd_follows_template "91".toList (by decide),
   typeAtEnd_follows_template "912".toList (by decide),
   typeAtEnd_follows_template "9123".toList (by decide),
   typeAtEnd_follows_template "91234567890".toList (by decide)⟩

/-- C2: the code breaks idempotence at the bare display. The input without digits
is reformatted to `+7`; reformatting `+7` gives `+7 (7`, and so does `+7 (`,
the text left when the only digit is deleted: the 7 of the `+7` in front is
kept as a digit, where the comment of line 98 has only the digits behind `+7`
kept. -/
theorem formatPhoneInput_bare_not_idempotent :
    formatPhoneInput [] = "+7".toList ∧
    formatPhoneInput (formatPhoneInput []) = "+7 (7".toList ∧
    formatPhoneInput (formatPhoneInput []) ≠ formatPhoneInput [] ∧
    formatPhoneInput "+7 (".toList = "+7 (7".toList := by
  decide

/-- Where the reformat is idempotent: every display that it produces, other than the bare
display `+7`, is left as it is by the reformat. -/
theorem formatPhoneInput_idempotent (s : JSString)
    (h : formatPhoneInput s ≠ "+7".toList) :
    formatPhoneInput (formatPhoneInput s) = formatPhoneInput s := by
  have hne : rawDigits s ≠ [] := fun h0 => h ((formatDigits_eq_bare_iff _).mpr h0)
  show formatDigits (rawDigits (formatDigits (rawDigits s))) = formatDigits (rawDigits s)
  rw [rawDigits_formatDigits (rawDigits s) (allDigits_rawDigits s) hne (length_rawDigits_le s)]

/-- The idempotence of the reformat at a pasted number with thirteen digits and at one
digit. -/
theorem formatPhoneInput_idempotent_witness :
    (formatPhoneInput "8 (912) 345-67-89 012".toList ≠ "+7".toList ∧
      formatPhoneInput (formatPhoneInput "8 (912) 345-67-89 012".toList)
        = formatPhoneInput "8 (912) 345-67-89 012".toList) ∧
    (formatPhoneInput "7".toList ≠ "+7".toList ∧
      formatPhoneInput (formatPhoneInput "7".toList) = formatPhoneInput "7".toList) :=
  ⟨⟨by decide, formatPhoneInput_idempotent _ (by decide)⟩,
   ⟨by decide, formatPhoneInput_idempotent _ (by decide)⟩⟩

/-- C3: the code breaks the round trip at the empty digit sequence. It is a digit
sequence of length 0 that does not start with 7, its display is `+7`, and the
digits extracted from that display are the single digit `7`, the one of the
`+7` in front, where the comment of line 98 has only the digits behind `+7`
kept. -/
theorem rawDigits_formatDigits_nil :
    (∀ c ∈ ([] : JSString), isDigit c = true) ∧ ([] : JSString).length ≤ 10 ∧
    startsWith7 [] = false ∧
    formatDigits [] = "+7".toList ∧ rawDigits (formatDigits []) = ['7'] ∧
    rawDigits (formatDigits []) ≠ [] := by
  decide

/-- Where the round trip holds: for every sequence of one to ten digits that does not start with
`7`, the digits extracted from its display are the sequence itself. -/
theorem rawDigits_formatDigits_roundtrip (d : JSString)
    (hd : ∀ c ∈ d, isDigit c = true) (h1 : 1 ≤ d.length) (h10 : d.length ≤ 10)
    (_h7 : startsWith7 d = false) :
    rawDigits (formatDigits d) = d :=
  rawDigits_formatDigits d hd (by rintro rfl; simp at h1) h10

/-- The round trip at the ten digits 9991234567 and at the single digit 0. -/
theorem rawDigits_formatDigits_roundtrip_witness :
    rawDigits (formatDigits "9991234567".toList) = "9991234567".toList ∧
    rawDigits (formatDigits "0".toList) = "0".toList :=
  ⟨rawDigits_formatDigits_roundtrip "9991234567".toList (by decide) (by decide) (by decide)
     (by decide),
   rawDigits_formatDigits_roundtrip "0".toList (by decide) (by decide) (by decide) (by decide)⟩

/-- C4: for every non-empty digit sequence that does not start with `7`, the
reformat of `7` followed by the sequence gives the display of the sequence
alone. -/
theorem formatPhoneInput_seven_cons (d : JSString)
    (hd : ∀ c ∈ d, isDigit c = true) (hne : d ≠ []) (h7 : startsWith7 d = false) :
    formatPhoneInput ('7' :: d) = formatPhoneInput d := by
  have hd7 : AllDigits ('7' :: d) := by
    intro c hc
    rcases List.mem_cons.mp hc with rfl | hc
    · exact isDigit_seven
    · exact hd c hc
  simp only [formatPhoneInput, rawDigits, normalizedDigits]
  rw [stripNonDigits_of_allDigits hd7, stripNonDigits_of_allDigits hd,
    dropLeading7_seven_cons d hne, dropLeading7_of_not_startsWith7 h7]

/-- C4 at 79991234567 and 9991234567: both give `+7 (999) 123-45-67`. -/
theorem formatPhoneInput_seven_cons_witness :
    formatPhoneInput "79991234567".toList = formatPhoneInput "9991234567".toList ∧
    formatPhoneInput "79991234567".toList = "+7 (999) 123-45-67".toList ∧
    formatPhoneInput "9991234567".toList = "+7 (999) 123-45-67".toList :=
  ⟨formatPhoneInput_seven_cons "9991234567".toList (by decide) (by decide) (by decide),
   by decide, by decide⟩

/-- C5: the display starts with `+7`; the digits behind this start are, in order,
the first `min(n, 10)` of the `n` normalized digits of the input; they are at
most ten and the display has at most eighteen characters. -/
theorem formatPhoneInput_truncates (s : JSString) :
    (formatPhoneInput s).take 2 = "+7".toList ∧
    stripNonDigits ((formatPhoneInput s).drop 2)
      = (normalizedDigits s).take (min (normalizedDigits s).length 10) ∧
    (stripNonDigits ((formatPhoneInput s).drop 2)).length ≤ 10 ∧
    (formatPhoneInput s).length ≤ 18 := by
  have hv := allDigits_rawDigits s
  have hlen := length_rawDigits_le s
  have hcons := formatDigits_eq_cons (rawDigits s)
  have hstrip := stripNonDigits_formatDigits (rawDigits s) hv hlen
  have hrest : stripNonDigits ((formatPhoneInput s).drop 2) = rawDigits s := by
    rw [hcons] at hstrip
    simpa [stripNonDigits, List.filter_cons, formatPhoneInput] using hstrip
  have hmin : (normalizedDigits s).take (min (normalizedDigits s).length 10)
      = rawDigits s := by
    rw [rawDigits_eq_take]
    by_cases hl : (normalizedDigits s).length ≤ 10
    · rw [Nat.min_eq_left hl, List.take_of_length_le hl, List.take_of_length_le (Nat.le_refl _)]
    · rw [Nat.min_eq_right (by omega)]
  refine ⟨?_, ?_, ?_, ?_⟩
  · show (formatDigits (rawDigits s)).take 2 = _
    rw [hcons]
    rfl
  · rw [hrest, hmin]
  · rw [hrest]
    exact hlen
  · exact length_formatDigits_le (rawDigits s) hv hlen

/-! ## The caret -/

/-- C6: the deferred caret correction of a field with text `D` and caret
`c ≤ length(D)` collapses the selection to a caret `c1 ≤ c`; every character
in `[c1, c)` is a separator; `c1 = 0` or the character before `c1` is no
separator, so the caret does not have a separator on both sides. -/
theorem restoreCursor_spec (D : JSString) (c e : Nat) (hc : c ≤ D.length) :
    ∃ c1, restoreCursor ⟨D, c, e⟩ = ⟨D, c1, c1⟩ ∧ c1 ≤ c ∧
      (∀ i, c1 ≤ i → i < c → ∃ ch, D[i]? = some ch ∧ isSeparator ch = true) ∧
      (c1 = 0 ∨ ∃ ch, D[c1 - 1]? = some ch ∧ isSeparator ch = false) ∧
      ¬ (0 < c1 ∧ testSeparator D[c1 - 1]? = true ∧ testSeparator D[c1]? = true) := by
  obtain ⟨h1, h2, h3⟩ := findPreviousDigitPosition_spec D c
  refine ⟨correctedCursor c D, ?_, ?_, ?_, ?_, ?_⟩
  all_goals rw [correctedCursor_eq]
  · show setSelectionRange ⟨D, c, e⟩ (correctedCursor c D) (correctedCursor c D) = _
    rw [correctedCursor_eq]
    exact setSelectionRange_of_le D c e _ _ (Nat.le_refl _) (Nat.le_trans h1 hc)
  · exact h1
  · intro i hi1 hi2
    exact (testSeparator_eq_true_iff _).mp (h2 i hi1 hi2)
  · rcases h3 with h0 | hns
    · exact Or.inl h0
    · by_cases h0 : findPreviousDigitPosition c D = 0
      · exact Or.inl h0
      · exact Or.inr (testSeparator_eq_false_of_lt D _ (by omega) hns)
  · rintro ⟨hpos, hl, -⟩
    rcases h3 with h0 | hns
    · omega
    · rw [hns] at hl
      exact Bool.false_ne_true hl

/-- C6 at the display `+7 (912) ` with the caret at its end, and at the display
`+7 (912) 3` with the caret before the 3. -/
theorem restoreCursor_spec_witness :
    restoreCursor ⟨"+7 (912) ".toList, 9, 9⟩ = ⟨"+7 (912) ".toList, 7, 7⟩ ∧
    restoreCursor ⟨"+7 (912) 3".toList, 9, 9⟩ = ⟨"+7 (912) 3".toList, 7, 7⟩ ∧
    ∃ c1, restoreCursor ⟨"+7 (912) ".toList, 9, 9⟩ = ⟨"+7 (912) ".toList, c1, c1⟩ ∧ c1 ≤ 9 ∧
      (∀ i, c1 ≤ i → i < 9 →
        ∃ ch, "+7 (912) ".toList[i]? = some ch ∧ isSeparator ch = true) ∧
      (c1 = 0 ∨ ∃ ch, "+7 (912) ".toList[c1 - 1]? = some ch ∧ isSeparator ch = false) ∧
      ¬ (0 < c1 ∧ testSeparator "+7 (912) ".toList[c1 - 1]? = true ∧
        testSeparator "+7 (912) ".toList[c1]? = true) :=
  ⟨by decide, by decide, restoreCursor_spec "+7 (912) ".toList 9 9 (by decide)⟩

/-- C7: on Backspace with the caret `c > 0` behind a separator, the default
deletion is suppressed, the text is kept, and the caret moves to `p < c`
with separators only in `[p, c)` and `p = 0` or no separator before `p`; in
every other case Backspace is not intercepted and the field is left as it is. -/
theorem handlePhoneKeyDown_backspace (D : JSString) (c e : Nat) :
    ((0 < c ∧ ∃ ch, D[c - 1]? = some ch ∧ isSeparator ch = true) →
      ∃ p, handlePhoneKeyDown Key.Backspace ⟨D, c, e⟩
          = { field := ⟨D, p, p⟩, defaultPrevented := true } ∧
        p < c ∧
        (∀ i, p ≤ i → i < c → ∃ ch, D[i]? = some ch ∧ isSeparator ch = true) ∧
        (p = 0 ∨ ∃ ch, D[p - 1]? = some ch ∧ isSeparator ch = false)) ∧
    (¬ (0 < c ∧ ∃ ch, D[c - 1]? = some ch ∧ isSeparator ch = true) →
      handlePhoneKeyDown Key.Backspace ⟨D, c, e⟩
        = { field := ⟨D, c, e⟩, defaultPrevented := false }) := by
  constructor
  · rintro ⟨hpos, hsep⟩
    have hlt : c - 1 < D.length := by
      obtain ⟨ch, hch, -⟩ := hsep
      by_contra hge
      rw [List.getElem?_eq_none (by omega)] at hch
      exact Option.noConfusion hch
    have htest : testSeparator D[c - 1]? = true := (testSeparator_eq_true_iff _).mpr hsep
    obtain ⟨h1, h2, h3⟩ := findPreviousDigitPosition_spec D (c - 1)
    refine ⟨findPreviousDigitPosition (c - 1) D, ?_, by omega, ?_, ?_⟩
    · simp only [handlePhoneKeyDown, handleBackspace, handleDelete, hpos, htest, gt_iff_lt,
        and_self, if_true, reduceCtorEq, if_false]
      rw [setSelectionRange_of_le D c e _ _ (Nat.le_refl _) (by omega)]
    · intro i hi1 hi2
      by_cases hi : i = c - 1
      · rw [hi]; exact hsep
      · exact (testSeparator_eq_true_iff _).mp (h2 i hi1 (by omega))
    · rcases h3 with h0 | hns
      · exact Or.inl h0
      · by_cases h0 : findPreviousDigitPosition (c - 1) D = 0
        · exact Or.inl h0
        · exact Or.inr (testSeparator_eq_false_of_lt D _ (by omega) hns)
  · intro hno
    rw [← testSeparator_eq_true_iff] at hno
    by_cases hpos : 0 < c
    · have htest : ¬ (testSeparator D[c - 1]? = true) := fun h => hno ⟨hpos, h⟩
      simp [handlePhoneKeyDown, handleBackspace, handleDelete, hpos, htest]
    · simp [handlePhoneKeyDown, handleBackspace, handleDelete, hpos]

/-- C7 at the display `+7 (999) ` with the caret at its end (offset 9): the caret
moves to offset 7, right behind the last 9; and at the caret behind that 9,
where Backspace is not intercepted. -/
theorem handlePhoneKeyDown_backspace_witness :
    handlePhoneKeyDown Key.Backspace ⟨"+7 (999) ".toList, 9, 9⟩
      = { field := ⟨"+7 (999) ".toList, 7, 7⟩, defaultPrevented := true } ∧
    (∃ p, handlePhoneKeyDown Key.Backspace ⟨"+7 (999) ".toList, 9, 9⟩
          = { field := ⟨"+7 (999) ".toList, p, p⟩, defaultPrevented := true } ∧
        p < 9 ∧
        (∀ i, p ≤ i → i < 9 →
          ∃ ch, "+7 (999) ".toList[i]? = some ch ∧ isSeparator ch = true) ∧
        (p = 0 ∨ ∃ ch, "+7 (999) ".toList[p - 1]? = some ch ∧ isSeparator ch = false)) ∧
    handlePhoneKeyDown Key.Backspace ⟨"+7 (999) ".toList, 7, 7⟩
      = { field := ⟨"+7 (999) ".toList, 7, 7⟩, defaultPrevented := false } :=
  ⟨by decide,
   (handlePhoneKeyDown_backspace "+7 (999) ".toList 9 9).1 ⟨by decide, ' ', by decide, by decide⟩,
   (handlePhoneKeyDown_backspace "+7 (999) ".toList 7 7).2
     (by rw [← testSeparator_eq_true_iff]; decide)⟩

/-- What the Delete branch does: with the caret `c` on a separator, the default deletion is
suppressed, the text is kept, and the selection becomes `[c, q]` with `q > c`,
separators only in `[c, q)`, and `q` the end of the text or on a character
that is no separator. -/
theorem handlePhoneKeyDown_delete (D : JSString) (c e : Nat)
    (hsep : ∃ ch, D[c]? = some ch ∧ isSeparator ch = true) :
    ∃ q, handlePhoneKeyDown Key.Delete ⟨D, c, e⟩
        = { field := ⟨D, c, q⟩, defaultPrevented := true } ∧
      c < q ∧ q ≤ D.length ∧
      (∀ i, c ≤ i → i < q → ∃ ch, D[i]? = some ch ∧ isSeparator ch = true) ∧
      (q = D.length ∨ ∃ ch, D[q]? = some ch ∧ isSeparator ch = false) := by
  have hlt : c < D.length := by
    obtain ⟨ch, hch, -⟩ := hsep
    by_contra hge
    rw [List.getElem?_eq_none (by omega)] at hch
    exact Option.noConfusion hch
  have htest : testSeparator D[c]? = true := (testSeparator_eq_true_iff _).mpr hsep
  obtain ⟨h1, h2, h3, h4⟩ := findNextDigitPosition_spec D (c + 1) (by omega)
  refine ⟨findNextDigitPosition (c + 1) D, ?_, by omega, h2, ?_, ?_⟩
  · exact handleDelete_on_separator D c e hlt htest
  · intro i hi1 hi2
    by_cases hi : i = c
    · rw [hi]; exact hsep
    · exact (testSeparator_eq_true_iff _).mp (h3 i (by omega) hi2)
  · rcases h4 with hend | hns
    · exact Or.inl hend
    · by_cases hend : findNextDigitPosition (c + 1) D = D.length
      · exact Or.inl hend
      · exact Or.inr (testSeparator_eq_false_of_lt D _ (by omega) hns)

/-- The Delete branch at the display `+7 (999) 123` with the caret on the closing bracket
(offset 7): the selection becomes `[7, 9]`, up to the digit 1. -/
theorem handlePhoneKeyDown_delete_witness :
    handlePhoneKeyDown Key.Delete ⟨"+7 (999) 123".toList, 7, 7⟩
      = { field := ⟨"+7 (999) 123".toList, 7, 9⟩, defaultPrevented := true } ∧
    ∃ q, handlePhoneKeyDown Key.Delete ⟨"+7 (999) 123".toList, 7, 7⟩
        = { field := ⟨"+7 (999) 123".toList, 7, q⟩, defaultPrevented := true } ∧
      7 < q ∧ q ≤ "+7 (999) 123".toList.length ∧
      (∀ i, 7 ≤ i → i < q →
        ∃ ch, "+7 (999) 123".toList[i]? = some ch ∧ isSeparator ch = true) ∧
      (q = "+7 (999) 123".toList.length ∨
        ∃ ch, "+7 (999) 123".toList[q]? = some ch ∧ isSeparator ch = false) :=
  ⟨by decide,
   handlePhoneKeyDown_delete "+7 (999) 123".toList 7 7 ⟨')', by decide, by decide⟩⟩

/-- C8: on Delete with the caret on a separator the code does not lead to the
deletion of the digit behind the run of separators. At `+7 (999) 123` with the
caret on the closing bracket (offset 7) the default deletion is suppressed and
the text kept; the selection `[7, 9)` holds the two separators and no digit;
a further Delete on that selection is suppressed again and changes nothing.
The Backspace branch, from the other side of the same run (caret 9), collapses
the caret to 7, where the next Backspace is let through to the digit. -/
theorem handlePhoneKeyDown_delete_keeps_digit :
    handlePhoneKeyDown Key.Delete ⟨"+7 (999) 123".toList, 7, 7⟩
      = { field := ⟨"+7 (999) 123".toList, 7, 9⟩, defaultPrevented := true } ∧
    slice "+7 (999) 123".toList 7 9 = ") ".toList ∧
    stripNonDigits (slice "+7 (999) 123".toList 7 9) = [] ∧
    handlePhoneKeyDown Key.Delete ⟨"+7 (999) 123".toList, 7, 9⟩
      = { field := ⟨"+7 (999) 123".toList, 7, 9⟩, defaultPrevented := true } ∧
    handlePhoneKeyDown Key.Backspace ⟨"+7 (999) 123".toList, 9, 9⟩
      = { field := ⟨"+7 (999) 123".toList, 7, 7⟩, defaultPrevented := true } ∧
    handlePhoneKeyDown Key.Backspace ⟨"+7 (999) 123".toList, 7, 7⟩
      = { field := ⟨"+7 (999) 123".toList, 7, 7⟩, defaultPrevented := false } := by
  decide

/-- C9 as stated fails at the empty display: the focus handler leaves the caret
of an empty field where it was, and not at offset 2. -/
theorem positionCursorOnFocus_empty :
    positionCursorOnFocus ⟨[], 0, 0⟩ = ⟨[], 0, 0⟩ ∧
    (positionCursorOnFocus ⟨[], 0, 0⟩).selectionStart ≠ 2 := by
  decide

/-- C9, amended: when the display is the bare `+7` the focus handler puts the
caret at offset 2, right behind it; for every other display, the empty one
included, it changes neither the caret nor the display. -/
theorem positionCursorOnFocus_spec (f : PhoneField) :
    (f.value = "+7".toList → positionCursorOnFocus f = ⟨"+7".toList, 2, 2⟩) ∧
    (f.value ≠ "+7".toList → positionCursorOnFocus f = f) := by
  constructor
  · intro h
    obtain ⟨D, c, e⟩ := f
    simp only at h
    subst h
    rfl
  · intro h
    have h1 : ¬ (f.value = ['+', '7']) := h
    simp [positionCursorOnFocus, h1]

/-- C9, amended, at the bare display with the caret at 0, and at the display
`+7 (9` with the caret at 0. -/
theorem positionCursorOnFocus_spec_witness :
    positionCursorOnFocus ⟨"+7".toList, 0, 0⟩ = ⟨"+7".toList, 2, 2⟩ ∧
    positionCursorOnFocus ⟨"+7 (9".toList, 0, 0⟩ = ⟨"+7 (9".toList, 0, 0⟩ :=
  ⟨(positionCursorOnFocus_spec ⟨"+7".toList, 0, 0⟩).1 rfl,
   (positionCursorOnFocus_spec ⟨"+7 (9".toList, 0, 0⟩).2 (by decide)⟩

/-! ## The submit-time pattern -/

/-- C10: the display that the reformat produces matches the pattern of
`handleAddContact`, as it stands and after the `trim` applied there, exactly
when the normalized digit sequence of the input has at least ten digits. -/
theorem formatPhoneInput_accepted_iff (s : JSString) :
    (matchesPhonePattern (formatPhoneInput s) = true ↔ 10 ≤ (normalizedDigits s).length) ∧
    (phoneAccepted (formatPhoneInput s) = true ↔ 10 ≤ (normalizedDigits s).length) := by
  have hv := allDigits_rawDigits s
  have hlen := length_rawDigits_le s
  have hiff : matchesPhonePattern (formatPhoneInput s) = true
      ↔ 10 ≤ (normalizedDigits s).length := by
    unfold formatPhoneInput
    rw [matchesPhonePattern_formatDigits (rawDigits s) hv hlen, rawDigits_eq_take,
      List.length_take]
    omega
  refine ⟨hiff, ?_⟩
  unfold phoneAccepted
  have ht : trim (formatPhoneInput s) = formatPhoneInput s :=
    trim_formatDigits (rawDigits s) hv hlen
  rw [ht]
  exact hiff

end Phonebook
